import Mathlib

/-!
# Verification of the rcalc expression evaluator

A shallow embedding of the rcalc calculator: a position-tracking lexer, a
recursive-descent parser with one token of lookahead (`src/parse.rs`,
module `recursive_descent_parse`), and a tree evaluator (`Expr::eval`),
together with the top-level entry point `eval` (called `evaluate` in the
spec).

Machine floats (`f64`) are modelled by exact rationals `ℚ`; every numeric
test value exercised below is exactly representable in an IEEE-754 double,
so exact arithmetic coincides with the program's arithmetic there.  The
float-specific junk values (infinities, NaN) are not modelled: in the
places where IEEE-754 would produce them (division by zero, modulo by
zero, negative base with fractional exponent) the model produces an
unspecified junk rational instead, and theorems about those places claim
only existence of a result, never its value.
-/

set_option synthInstance.maxSize 2048

namespace RCalc

/-! ## Lexer

`src/lex.rs` in the repository snapshot is a stale revision: `parse.rs`
matches on a `Percent` token, names `lex::UNKNOWN_SYMBOL`, destructures
lexer items as `Result<(TokenPosition, Token), LexErr>` and `LexErr` as a
`(position, message)` pair, none of which that revision of `lex.rs`
provides.  The lexer embedded here is therefore modelled from the spec
(section 4.1), matching the interface `parse.rs` consumes. -/

/-- Modelled from the spec: the token type of the lexer revision that
`parse.rs` consumes (the stale `src/lex.rs` lacks `Percent`); tokens are
`LParen RParen Plus Dash Star Slash Percent Caret Number`.  The `f64`
payload of `Number` is modelled as `ℚ`. -/
inductive Token where
  | LParen
  | RParen
  | Plus
  | Dash
  | Caret
  | Slash
  | Star
  | Percent
  | Number (n : ℚ)
deriving DecidableEq, Repr

/-- Byte/character offset of a token in the source text (`lex.rs`). -/
abbrev TokenPosition := Nat

/-- Modelled from the spec: a lexical error is a `(position, message)`
pair, as destructured by `lib.rs` (`let (pos, msg) = err`) and built by
`parse.rs` (`CalcErr::Lex((pos, UNEXPECTED_TOKEN))`). -/
abbrev LexErr := TokenPosition × String

/-- Modelled from the spec: the message of a failed numeric-literal scan,
referenced by `parse.rs` tests as `lex::UNKNOWN_SYMBOL`. -/
def UNKNOWN_SYMBOL : String := "unknown symbol"

/-- One item of the lazy lexer sequence: `Result<(position, Token), LexErr>`
(spec section 4.1). -/
abbrev LexItem := Except LexErr (TokenPosition × Token)

/-- Modelled from the spec: number-literal scanning greedily consumes ASCII
digits and at most one dot; a second dot terminates the literal without
being consumed.  Returns the consumed run (excluding the starting
character, which the caller already consumed). -/
def scanNum : List Char → Bool → List Char
  | [], _ => []
  | c :: tl, foundDot =>
    if c = '.' then
      if foundDot then []
      else c :: scanNum tl true
    else if c.isDigit then c :: scanNum tl foundDot
    else []

/-- Value of a digit character. -/
def digitVal (c : Char) : Nat := c.toNat - '0'.toNat

/-- Fold a list of ASCII digits into a natural number, most significant
first. -/
def natOfDigits (cs : List Char) : Nat :=
  cs.foldl (fun a c => 10 * a + digitVal c) 0

/-- Modelled from the spec: Rust's `str::parse::<f64>` restricted to the
strings a number run can be (one arbitrary non-operator character followed
by digits and dots): it succeeds exactly when every character is an ASCII
digit or a dot, there is at most one dot, and there is at least one digit;
the value is the decimal rational the digits denote. -/
def numParse (cs : List Char) : Option ℚ :=
  if cs.all (fun c => c.isDigit || c = '.')
      && cs.countP (fun c => c = '.') ≤ 1
      && cs.any (fun c => c.isDigit) then
    let ip := cs.takeWhile (fun c => c ≠ '.')
    let fp := (cs.dropWhile (fun c => c ≠ '.')).drop 1
    some (mkRat (natOfDigits ip * 10 ^ fp.length + natOfDigits fp) (10 ^ fp.length))
  else
    none

/-- The single-character tokens of the lexer: `( ) + - * / % ^` map
directly to their token (spec section 4.1; `%` is `Percent`). -/
def singleTok : Char → Option Token
  | '(' => some .LParen
  | ')' => some .RParen
  | '+' => some .Plus
  | '-' => some .Dash
  | '*' => some .Star
  | '/' => some .Slash
  | '^' => some .Caret
  | '%' => some .Percent
  | _ => none

/-- Modelled from the spec: the lexer loop.  Skips whitespace, emits
single-character tokens at their own starting position, scans number runs
(emitting `Number` at the run's starting position), and on a run that does
not parse as a numeric literal emits one lexical error at the run's
starting position with message `unknown symbol` and stops (the sequence is
exhausted after an error).  `fuel` is a structural-recursion bound; every
step consumes at least one character, so `chars.length + 1` fuel always
suffices (proved in `lexRun_length_le` and `lexRun_fuel_irrelevant`). -/
def lexRun : Nat → List Char → Nat → List LexItem
  | 0, _, _ => []
  | _ + 1, [], _ => []
  | fuel + 1, c :: tl, i =>
    if c.isWhitespace then lexRun fuel tl (i + 1)
    else
      match singleTok c with
      | some t => .ok (i, t) :: lexRun fuel tl (i + 1)
      | none =>
        let run := scanNum tl (c = '.')
        match numParse (c :: run) with
        | some q =>
          .ok (i, .Number q) :: lexRun fuel (tl.drop run.length) (i + 1 + run.length)
        | none => [.error (i, UNKNOWN_SYMBOL)]

/-- The whole token sequence of an input string. -/
def tokens (s : String) : List LexItem :=
  lexRun (s.data.length + 1) s.data 0

/-! ## Parser data model (`src/parse.rs`) -/

/-- The `enum Operator` of `parse.rs`. -/
inductive Operator where
  | Add
  | Sub
  | Mul
  | Div
  | Mod
  | Pow
  | Neg
deriving DecidableEq, Repr

/-- The `enum Expr` of `parse.rs`: the parse tree. -/
inductive Expr where
  | Unary (op : Operator) (e : Expr)
  | Binary (op : Operator) (l r : Expr)
  | Num (n : ℚ)
deriving DecidableEq, Repr

/-- The constant `UNEXPECTED_TOKEN` of `parse.rs`. -/
def UNEXPECTED_TOKEN : String := "not expected here"

/-- The `enum CalcErr` of `parse.rs`. -/
inductive CalcErr where
  | Lex (e : LexErr)
  | Incomplete
deriving DecidableEq, Repr

/-- Truncation of a rational toward zero, the rounding of Rust's float
`%`: since `q.den > 0` and `q.num.tdiv q.den` is integer division rounding
toward zero, this is exactly `trunc (num / den)`. -/
def rustTrunc (q : ℚ) : ℤ := q.num.tdiv q.den

/-- Rust's `%` on `f64`: the truncated remainder `a - b * trunc (a / b)`
(sign follows the dividend).  Exact on exactly representable operands; for
`b = 0`, where IEEE-754 gives NaN, the model gives the junk value `a`. -/
def rustFmod (a b : ℚ) : ℚ := a - b * (rustTrunc (a / b) : ℚ)

/-- The largest `k ≤ bound` with `k * k ≤ n` (descending linear search,
structurally recursive so that it evaluates inside `decide`). -/
def sqrtLE (n : Nat) : Nat → Nat
  | 0 => 0
  | k + 1 => if (k + 1) * (k + 1) ≤ n then k + 1 else sqrtLE n k

/-- Integer square root of a natural number: the largest `k` with `k * k ≤ n`. -/
def natSqrt (n : Nat) : Nat := sqrtLE n n

/-- Square root of a rational, exact on perfect squares (numerator and
denominator are rounded down to the nearest integer root otherwise,
and a negative numerator truncates to `0`). -/
def ratSqrt (q : ℚ) : ℚ := mkRat (natSqrt q.num.toNat) (natSqrt q.den)

/-- Rust's `f64::powf` modelled on the exact cases the program's spec
exercises: integer exponents are exact integer powers, half-integer
exponents of perfect squares are exact square roots (for example
`9 ^ 0.5 = 3`); elsewhere (irrational results, or a negative base with a
fractional exponent, which IEEE-754 sends to NaN) the model returns an
unspecified junk value. -/
def rustPowf (a b : ℚ) : ℚ :=
  if b.den = 1 then a ^ b.num
  else if b.den = 2 ∧ 0 ≤ a then ratSqrt (a ^ b.num)
  else 0

/-- The method `Expr::eval` of `parse.rs`, with `f64` arithmetic modelled over `ℚ`
(`%` is `rustFmod`, `powf` is `rustPowf`; `ℚ` division by zero produces
the junk value `0` where IEEE-754 produces an infinity or NaN). -/
def Expr.eval : Expr → ℚ
  | .Num x => x
  | .Unary .Neg x => -x.eval
  | .Binary .Add x y => x.eval + y.eval
  | .Binary .Sub x y => x.eval - y.eval
  | .Binary .Neg x y => x.eval - y.eval
  | .Binary .Mul x y => x.eval * y.eval
  | .Binary .Div x y => x.eval / y.eval
  | .Binary .Mod x y => rustFmod x.eval y.eval
  | .Binary .Pow x y => rustPowf x.eval y.eval
  | .Unary _ x => x.eval

/-! ## Recursive-descent parser (`src/parse.rs`, module
`recursive_descent_parse`)

Each Rust function maps to one Lean function over the remaining token
list; the Rust `loop`s become the `..Loop` helpers.  The peekable lexer is
the explicit remaining list: `peek` inspects the head, `next` drops it.
Because the functions recurse through a cycle
(`parse_expr → parse_term → parse_factor → parse_primary →
parse_parenthesised → parse_expr`), a structural `fuel` parameter bounds
the recursion depth; `none` means the fuel ran out, and
`parse_complete_expr_fuel_sufficient` below proves that with fuel
`8 * length + 8` that never happens, mirroring the termination of the
Rust original. -/

/-- Result of one parser rule: `none` is fuel exhaustion (never reached
with sufficient fuel); otherwise the Rust `ExprResult` plus the remaining
token list. -/
abbrev ParseRes := Option (Except CalcErr (Expr × List LexItem))

mutual

/-- Function `parse_expr` of `parse.rs`: one `parse_term`, then the
addition/subtraction loop. -/
def parse_expr : Nat → List LexItem → ParseRes
  | 0, _ => none
  | fuel + 1, l =>
    match parse_term fuel l with
    | none => none
    | some (.error e) => some (.error e)
    | some (.ok (e, rest)) => parse_expr_loop fuel e rest

/-- The `loop` of `parse_expr`: while the peeked token is `Plus` or
`Dash`, consume it and fold another `parse_term` in on the left. -/
def parse_expr_loop : Nat → Expr → List LexItem → ParseRes
  | 0, _, _ => none
  | _ + 1, e, [] => some (.ok (e, []))
  | fuel + 1, e, item :: tl =>
    match item with
    | .ok (_, .Plus) =>
      match parse_term fuel tl with
      | none => none
      | some (.error er) => some (.error er)
      | some (.ok (e2, rest)) =>
        parse_expr_loop fuel (.Binary .Add e e2) rest
    | .ok (_, .Dash) =>
      match parse_term fuel tl with
      | none => none
      | some (.error er) => some (.error er)
      | some (.ok (e2, rest)) =>
        parse_expr_loop fuel (.Binary .Sub e e2) rest
    | _ => some (.ok (e, item :: tl))

/-- Function `parse_term` of `parse.rs`: one `parse_factor`, then the
multiplication/division/modulo loop. -/
def parse_term : Nat → List LexItem → ParseRes
  | 0, _ => none
  | fuel + 1, l =>
    match parse_factor fuel l with
    | none => none
    | some (.error e) => some (.error e)
    | some (.ok (e, rest)) => parse_term_loop fuel e rest

/-- The `loop` of `parse_term`: while the peeked token is `Star`, `Slash`
or `Percent`, consume it and fold another `parse_factor` in on the
left. -/
def parse_term_loop : Nat → Expr → List LexItem → ParseRes
  | 0, _, _ => none
  | _ + 1, e, [] => some (.ok (e, []))
  | fuel + 1, e, item :: tl =>
    match item with
    | .ok (_, .Star) =>
      match parse_factor fuel tl with
      | none => none
      | some (.error er) => some (.error er)
      | some (.ok (e2, rest)) =>
        parse_term_loop fuel (.Binary .Mul e e2) rest
    | .ok (_, .Slash) =>
      match parse_factor fuel tl with
      | none => none
      | some (.error er) => some (.error er)
      | some (.ok (e2, rest)) =>
        parse_term_loop fuel (.Binary .Div e e2) rest
    | .ok (_, .Percent) =>
      match parse_factor fuel tl with
      | none => none
      | some (.error er) => some (.error er)
      | some (.ok (e2, rest)) =>
        parse_term_loop fuel (.Binary .Mod e e2) rest
    | _ => some (.ok (e, item :: tl))

/-- Function `parse_factor` of `parse.rs`: one `parse_primary`, then the power
loop. -/
def parse_factor : Nat → List LexItem → ParseRes
  | 0, _ => none
  | fuel + 1, l =>
    match parse_primary fuel l with
    | none => none
    | some (.error e) => some (.error e)
    | some (.ok (e, rest)) => parse_factor_loop fuel e rest

/-- The `loop` of `parse_factor`: on a peeked `Caret`, consume it and
recurse into `parse_factor` for the right operand (right
associativity). -/
def parse_factor_loop : Nat → Expr → List LexItem → ParseRes
  | 0, _, _ => none
  | _ + 1, e, [] => some (.ok (e, []))
  | fuel + 1, e, item :: tl =>
    match item with
    | .ok (_, .Caret) =>
      match parse_factor fuel tl with
      | none => none
      | some (.error er) => some (.error er)
      | some (.ok (e2, rest)) =>
        parse_factor_loop fuel (.Binary .Pow e e2) rest
    | _ => some (.ok (e, item :: tl))

/-- Function `parse_primary` of `parse.rs`: no token left is `Incomplete`; a
lexical error item propagates as `Lex`; a number is a leaf; `(` hands over
to `parse_parenthesised`; `-` builds `Unary(Neg, parse_factor(..))`; any
other token is `Lex(pos, "not expected here")`. -/
def parse_primary : Nat → List LexItem → ParseRes
  | 0, _ => none
  | _ + 1, [] => some (.error .Incomplete)
  | fuel + 1, item :: tl =>
    match item with
    | .error e => some (.error (.Lex e))
    | .ok (_, .Number n) => some (.ok (.Num n, tl))
    | .ok (_, .LParen) => parse_parenthesised fuel tl
    | .ok (_, .Dash) =>
      match parse_factor fuel tl with
      | none => none
      | some (.error er) => some (.error er)
      | some (.ok (e, rest)) => some (.ok (.Unary .Neg e, rest))
    | .ok (pos, _) => some (.error (.Lex (pos, UNEXPECTED_TOKEN)))

/-- Function `parse_parenthesised` of `parse.rs`: parse a full expression, then
require the next item to be `RParen` (a lexical error item propagates as
`Lex`, anything else, including end of input, is `Incomplete`). -/
def parse_parenthesised : Nat → List LexItem → ParseRes
  | 0, _ => none
  | fuel + 1, l =>
    match parse_expr fuel l with
    | none => none
    | some (.error e) => some (.error e)
    | some (.ok (e, rest)) =>
      match rest with
      | .ok (_, .RParen) :: tl => some (.ok (e, tl))
      | .error er :: _ => some (.error (.Lex er))
      | _ => some (.error .Incomplete)

end

/-- Function `parse_complete_expr` of `parse.rs`: one full expression, then the
token stream must be exhausted; a leftover token is
`Lex(pos, "not expected here")`, a leftover lexical error propagates. -/
def parse_complete_expr : Nat → List LexItem → Option (Except CalcErr Expr)
  | 0, _ => none
  | fuel + 1, l =>
    match parse_expr fuel l with
    | none => none
    | some (.error e) => some (.error e)
    | some (.ok (e, rest)) =>
      match rest with
      | [] => some (.ok e)
      | .ok (pos, _) :: _ => some (.error (.Lex (pos, UNEXPECTED_TOKEN)))
      | .error er :: _ => some (.error (.Lex er))

/-- Function `parse` of `parse.rs`: lex the input and run `parse_complete_expr`.
The fuel `8 * length + 8` always suffices
(`parse_complete_expr_fuel_sufficient`), so the `getD` default is never
taken. -/
def parse (s : String) : Except CalcErr Expr :=
  let l := tokens s
  (parse_complete_expr (8 * l.length + 8) l).getD (.error .Incomplete)

/-- The entry point `pub fn eval` of `parse.rs` (named `evaluate` in the spec):
`Ok(parse(input)?.eval())`. -/
def evaluate (s : String) : Except CalcErr ℚ :=
  (parse s).map Expr.eval

/-- Bound property of one parser-rule result: the fuel did not run out,
and on success the remaining token list is no longer than `n`. -/
def ruleOK (o : ParseRes) (n : Nat) : Prop :=
  o ≠ none ∧ ∀ e rest, o = some (.ok (e, rest)) → rest.length ≤ n

/-! ## A computable mirror of the evaluator

The field operations of `ℚ` are `@[irreducible]` in the ambient library,
so a term like `Expr.eval e` does not evaluate inside `decide`.  The
functions below compute the same rationals directly through `mkRat` on
numerators and denominators; each is proved equal to the corresponding
field operation (`qaddC_eq` and friends below), giving `eval_eq_evalC` and
`evaluate_eq_evaluateC`, after which every concrete test property of the
spec is settled by `decide`. -/

/-- Computable rational addition: `a/b + c/d = (a*d + c*b)/(b*d)`. -/
def qaddC (a b : ℚ) : ℚ := mkRat (a.num * b.den + b.num * a.den) (a.den * b.den)

/-- Computable rational negation. -/
def qnegC (a : ℚ) : ℚ := mkRat (-a.num) a.den

/-- Computable rational subtraction. -/
def qsubC (a b : ℚ) : ℚ := qaddC a (qnegC b)

/-- Computable rational multiplication. -/
def qmulC (a b : ℚ) : ℚ := mkRat (a.num * b.num) (a.den * b.den)

/-- Computable rational inverse (`0⁻¹ = 0`, as in `ℚ`). -/
def qinvC (a : ℚ) : ℚ :=
  if 0 ≤ a.num then mkRat a.den a.num.toNat else mkRat (-(a.den : ℤ)) (-a.num).toNat

/-- Computable rational division. -/
def qdivC (a b : ℚ) : ℚ := qmulC a (qinvC b)

/-- Computable rational power by a natural number. -/
def qnpowC (a : ℚ) (n : Nat) : ℚ := mkRat (a.num ^ n) (a.den ^ n)

/-- Computable rational power by an integer. -/
def qzpowC (a : ℚ) : ℤ → ℚ
  | .ofNat n => qnpowC a n
  | .negSucc n => qinvC (qnpowC a (n + 1))

/-- Computable cast of an integer into `ℚ`. -/
def qintC (z : ℤ) : ℚ := mkRat z 1

/-- Computable mirror of `rustFmod`. -/
def rustFmodC (a b : ℚ) : ℚ := qsubC a (qmulC b (qintC (rustTrunc (qdivC a b))))

/-- Computable mirror of `rustPowf`. -/
def rustPowfC (a b : ℚ) : ℚ :=
  if b.den = 1 then qzpowC a b.num
  else if b.den = 2 ∧ 0 ≤ a then ratSqrt (qzpowC a b.num)
  else 0

/-- Computable mirror of `Expr.eval`. -/
def evalC : Expr → ℚ
  | .Num x => x
  | .Unary .Neg x => qnegC (evalC x)
  | .Binary .Add x y => qaddC (evalC x) (evalC y)
  | .Binary .Sub x y => qsubC (evalC x) (evalC y)
  | .Binary .Neg x y => qsubC (evalC x) (evalC y)
  | .Binary .Mul x y => qmulC (evalC x) (evalC y)
  | .Binary .Div x y => qdivC (evalC x) (evalC y)
  | .Binary .Mod x y => rustFmodC (evalC x) (evalC y)
  | .Binary .Pow x y => rustPowfC (evalC x) (evalC y)
  | .Unary _ x => evalC x

/-- Computable mirror of `evaluate`. -/
def evaluateC (s : String) : Except CalcErr ℚ :=
  (parse s).map evalC

/-- Equality of `Except` results is decidable, so the concrete test
properties below can be settled by computation. -/
instance {ε α : Type} [DecidableEq ε] [DecidableEq α] :
    DecidableEq (Except ε α) := fun x y =>
  match x, y with
  | .error a, .error b =>
    if h : a = b then isTrue (by rw [h]) else isFalse (by simp [h])
  | .ok a, .ok b =>
    if h : a = b then isTrue (by rw [h]) else isFalse (by simp [h])
  | .error _, .ok _ => isFalse (by simp)
  | .ok _, .error _ => isFalse (by simp)

/-! ## Supporting lemmas

First the mirror operations agree with the `ℚ` field operations; then the
parser's fuel bound is sufficient, and the lexer consumes at least one
character per emitted item. -/

theorem qaddC_eq (a b : ℚ) : qaddC a b = a + b := by
  have ha : (a.den : ℚ) ≠ 0 := by exact_mod_cast a.den_nz
  have hb : (b.den : ℚ) ≠ 0 := by exact_mod_cast b.den_nz
  rw [qaddC, Rat.mkRat_eq_div]
  conv_rhs => rw [← Rat.num_div_den a, ← Rat.num_div_den b]
  rw [div_add_div _ _ ha hb]
  push_cast
  ring_nf

theorem qnegC_eq (a : ℚ) : qnegC a = -a := by
  rw [qnegC, Rat.mkRat_eq_div]
  conv_rhs => rw [← Rat.num_div_den a]
  push_cast
  ring_nf

theorem qsubC_eq (a b : ℚ) : qsubC a b = a - b := by
  rw [qsubC, qaddC_eq, qnegC_eq, sub_eq_add_neg]

theorem qmulC_eq (a b : ℚ) : qmulC a b = a * b := by
  rw [qmulC, Rat.mkRat_eq_div]
  conv_rhs => rw [← Rat.num_div_den a, ← Rat.num_div_den b]
  rw [div_mul_div_comm]
  push_cast
  ring_nf

theorem qinvC_eq (a : ℚ) : qinvC a = a⁻¹ := by
  rw [qinvC]
  rcases lt_trichotomy a.num 0 with h | h | h
  · rw [if_neg (not_le.mpr h), Rat.mkRat_eq_div]
    have h2 : (((-a.num).toNat : ℤ) : ℚ) = ((-a.num : ℤ) : ℚ) := by
      exact_mod_cast congrArg (fun z : ℤ => (z : ℚ)) (Int.toNat_of_nonneg (by omega))
    rw [show (((-a.num).toNat : ℕ) : ℚ) = (((-a.num).toNat : ℤ) : ℚ) by push_cast; ring]
    rw [h2]
    conv_rhs => rw [← Rat.num_div_den a]
    rw [inv_div]
    push_cast
    rw [neg_div_neg_eq]
  · rw [if_pos (le_of_eq h.symm)]
    have h0 : a = 0 := by rw [← Rat.num_div_den a, h]; simp
    rw [h0]
    simp [h, h0]
  · rw [if_pos (le_of_lt h), Rat.mkRat_eq_div]
    have h2 : ((a.num.toNat : ℤ) : ℚ) = ((a.num : ℤ) : ℚ) := by
      exact_mod_cast congrArg (fun z : ℤ => (z : ℚ)) (Int.toNat_of_nonneg (le_of_lt h))
    rw [show ((a.num.toNat : ℕ) : ℚ) = ((a.num.toNat : ℤ) : ℚ) by push_cast; ring]
    rw [h2]
    conv_rhs => rw [← Rat.num_div_den a]
    rw [inv_div]
    norm_cast

theorem qdivC_eq (a b : ℚ) : qdivC a b = a / b := by
  rw [qdivC, qmulC_eq, qinvC_eq, div_eq_mul_inv]

theorem qnpowC_eq (a : ℚ) (n : Nat) : qnpowC a n = a ^ n := by
  rw [qnpowC, Rat.mkRat_eq_div]
  conv_rhs => rw [← Rat.num_div_den a]
  rw [div_pow]
  push_cast
  ring_nf

theorem qzpowC_eq (a : ℚ) (z : ℤ) : qzpowC a z = a ^ z := by
  cases z with
  | ofNat n => rw [qzpowC, qnpowC_eq, Int.ofNat_eq_coe, zpow_natCast]
  | negSucc n => rw [qzpowC, qinvC_eq, qnpowC_eq, zpow_negSucc]

theorem qintC_eq (z : ℤ) : qintC z = (z : ℚ) := by
  rw [qintC, Rat.mkRat_eq_div]
  simp

theorem rustFmodC_eq (a b : ℚ) : rustFmodC a b = rustFmod a b := by
  rw [rustFmodC, rustFmod, qsubC_eq, qmulC_eq, qintC_eq, qdivC_eq]

theorem rustPowfC_eq (a b : ℚ) : rustPowfC a b = rustPowf a b := by
  rw [rustPowfC, rustPowf, qzpowC_eq]

theorem eval_eq_evalC : ∀ e : Expr, e.eval = evalC e := by
  intro e
  induction e with
  | Num n => rfl
  | Unary op e ih =>
    cases op <;>
      simp [Expr.eval, evalC, ih, qnegC_eq]
  | Binary op l r ihl ihr =>
    cases op <;>
      simp [Expr.eval, evalC, ihl, ihr, qaddC_eq, qsubC_eq, qmulC_eq,
        qdivC_eq, rustFmodC_eq, rustPowfC_eq]

theorem evaluate_eq_evaluateC (s : String) : evaluate s = evaluateC s := by
  rw [evaluate, evaluateC, show Expr.eval = evalC from funext eval_eq_evalC]

theorem ruleOK_mono {o : ParseRes} {n m : Nat} (h : ruleOK o n) (hnm : n ≤ m) :
    ruleOK o m :=
  ⟨h.1, fun e rest he => le_trans (h.2 e rest he) hnm⟩

theorem ruleOK_error (er : CalcErr) (n : Nat) : ruleOK (some (.error er)) n := by
  constructor
  · simp
  · intro e rest h
    simp at h

theorem ruleOK_ok (e : Expr) (rest : List LexItem) (n : Nat) (h : rest.length ≤ n) :
    ruleOK (some (.ok (e, rest))) n := by
  constructor
  · simp
  · intro e2 rest2 h2
    simp only [Option.some.injEq, Except.ok.injEq, Prod.mk.injEq] at h2
    obtain ⟨h3, h4⟩ := h2
    subst h4
    exact h

theorem parse_fuel_sufficient :
    ∀ fuel : Nat,
      (∀ l : List LexItem, 8 * l.length + 1 ≤ fuel → ruleOK (parse_primary fuel l) l.length) ∧
      (∀ (l : List LexItem) (e : Expr), 8 * l.length + 2 ≤ fuel → ruleOK (parse_factor_loop fuel e l) l.length) ∧
      (∀ l : List LexItem, 8 * l.length + 3 ≤ fuel → ruleOK (parse_factor fuel l) l.length) ∧
      (∀ (l : List LexItem) (e : Expr), 8 * l.length + 4 ≤ fuel → ruleOK (parse_term_loop fuel e l) l.length) ∧
      (∀ l : List LexItem, 8 * l.length + 5 ≤ fuel → ruleOK (parse_term fuel l) l.length) ∧
      (∀ (l : List LexItem) (e : Expr), 8 * l.length + 6 ≤ fuel → ruleOK (parse_expr_loop fuel e l) l.length) ∧
      (∀ l : List LexItem, 8 * l.length + 7 ≤ fuel → ruleOK (parse_expr fuel l) l.length) ∧
      (∀ l : List LexItem, 8 * l.length + 8 ≤ fuel → ruleOK (parse_parenthesised fuel l) l.length) := by
  intro fuel
  induction fuel with
  | zero =>
    refine ⟨?_, ?_, ?_, ?_, ?_, ?_, ?_, ?_⟩ <;> intro l <;> intros <;> omega
  | succ fuel ih =>
    obtain ⟨ihPrim, ihFacL, ihFac, ihTerL, ihTer, ihExpL, ihExp, ihPar⟩ := ih
    have hPrim : ∀ l : List LexItem, 8 * l.length + 1 ≤ fuel + 1 →
        ruleOK (parse_primary (fuel + 1) l) l.length := by
      intro l hl
      match l with
      | [] => exact ruleOK_error _ _
      | .error er :: tl => exact ruleOK_error _ _
      | .ok (p, .Number n) :: tl =>
        exact ruleOK_ok _ _ _ (by simp)
      | .ok (p, .LParen) :: tl =>
        have h := ihPar tl (by simp at hl ⊢; omega)
        simp only [parse_primary]
        exact ruleOK_mono h (by simp)
      | .ok (p, .Dash) :: tl =>
        have h := ihFac tl (by simp at hl ⊢; omega)
        simp only [parse_primary]
        cases hps : parse_factor fuel tl with
        | none => exact absurd hps h.1
        | some v =>
          cases v with
          | error er => exact ruleOK_error _ _
          | ok pr =>
            obtain ⟨e2, rest⟩ := pr
            have hr := h.2 e2 rest hps
            exact ruleOK_ok _ _ _ (by simp at hr ⊢; omega)
      | .ok (p, .RParen) :: tl => exact ruleOK_error _ _
      | .ok (p, .Plus) :: tl => exact ruleOK_error _ _
      | .ok (p, .Caret) :: tl => exact ruleOK_error _ _
      | .ok (p, .Slash) :: tl => exact ruleOK_error _ _
      | .ok (p, .Star) :: tl => exact ruleOK_error _ _
      | .ok (p, .Percent) :: tl => exact ruleOK_error _ _
    have hFacL : ∀ (l : List LexItem) (e : Expr), 8 * l.length + 2 ≤ fuel + 1 →
        ruleOK (parse_factor_loop (fuel + 1) e l) l.length := by
      intro l e hl
      match l with
      | [] => exact ruleOK_ok _ _ _ (by simp)
      | .ok (p, .Caret) :: tl =>
        have h := ihFac tl (by simp at hl ⊢; omega)
        simp only [parse_factor_loop]
        cases hps : parse_factor fuel tl with
        | none => exact absurd hps h.1
        | some v =>
          cases v with
          | error er => exact ruleOK_error _ _
          | ok pr =>
            obtain ⟨e2, rest⟩ := pr
            have hr := h.2 e2 rest hps
            have h2 := ihFacL rest (.Binary .Pow e e2) (by simp at hl hr ⊢; omega)
            exact ruleOK_mono h2 (by simp at hr ⊢; omega)
      | .error er :: tl => exact ruleOK_ok _ _ _ (by simp)
      | .ok (p, .Number n) :: tl => exact ruleOK_ok _ _ _ (by simp)
      | .ok (p, .LParen) :: tl => exact ruleOK_ok _ _ _ (by simp)
      | .ok (p, .RParen) :: tl => exact ruleOK_ok _ _ _ (by simp)
      | .ok (p, .Plus) :: tl => exact ruleOK_ok _ _ _ (by simp)
      | .ok (p, .Dash) :: tl => exact ruleOK_ok _ _ _ (by simp)
      | .ok (p, .Slash) :: tl => exact ruleOK_ok _ _ _ (by simp)
      | .ok (p, .Star) :: tl => exact ruleOK_ok _ _ _ (by simp)
      | .ok (p, .Percent) :: tl => exact ruleOK_ok _ _ _ (by simp)
    have hFac : ∀ l : List LexItem, 8 * l.length + 3 ≤ fuel + 1 →
        ruleOK (parse_factor (fuel + 1) l) l.length := by
      intro l hl
      have h := ihPrim l (by omega)
      simp only [parse_factor]
      cases hps : parse_primary fuel l with
      | none => exact absurd hps h.1
      | some v =>
        cases v with
        | error er => exact ruleOK_error _ _
        | ok pr =>
          obtain ⟨e2, rest⟩ := pr
          have hr := h.2 e2 rest hps
          have h2 := ihFacL rest e2 (by omega)
          exact ruleOK_mono h2 hr
    have hTerL : ∀ (l : List LexItem) (e : Expr), 8 * l.length + 4 ≤ fuel + 1 →
        ruleOK (parse_term_loop (fuel + 1) e l) l.length := by
      intro l e hl
      match l with
      | [] => exact ruleOK_ok _ _ _ (by simp)
      | .ok (p, .Star) :: tl =>
        have h := ihFac tl (by simp at hl ⊢; omega)
        simp only [parse_term_loop]
        cases hps : parse_factor fuel tl with
        | none => exact absurd hps h.1
        | some v =>
          cases v with
          | error er => exact ruleOK_error _ _
          | ok pr =>
            obtain ⟨e2, rest⟩ := pr
            have hr := h.2 e2 rest hps
            have h2 := ihTerL rest (.Binary .Mul e e2) (by simp at hl hr ⊢; omega)
            exact ruleOK_mono h2 (by simp at hr ⊢; omega)
      | .ok (p, .Slash) :: tl =>
        have h := ihFac tl (by simp at hl ⊢; omega)
        simp only [parse_term_loop]
        cases hps : parse_factor fuel tl with
        | none => exact absurd hps h.1
        | some v =>
          cases v with
          | error er => exact ruleOK_error _ _
          | ok pr =>
            obtain ⟨e2, rest⟩ := pr
            have hr := h.2 e2 rest hps
            have h2 := ihTerL rest (.Binary .Div e e2) (by simp at hl hr ⊢; omega)
            exact ruleOK_mono h2 (by simp at hr ⊢; omega)
      | .ok (p, .Percent) :: tl =>
        have h := ihFac tl (by simp at hl ⊢; omega)
        simp only [parse_term_loop]
        cases hps : parse_factor fuel tl with
        | none => exact absurd hps h.1
        | some v =>
          cases v with
          | error er => exact ruleOK_error _ _
          | ok pr =>
            obtain ⟨e2, rest⟩ := pr
            have hr := h.2 e2 rest hps
            have h2 := ihTerL rest (.Binary .Mod e e2) (by simp at hl hr ⊢; omega)
            exact ruleOK_mono h2 (by simp at hr ⊢; omega)
      | .error er :: tl => exact ruleOK_ok _ _ _ (by simp)
      | .ok (p, .Number n) :: tl => exact ruleOK_ok _ _ _ (by simp)
      | .ok (p, .LParen) :: tl => exact ruleOK_ok _ _ _ (by simp)
      | .ok (p, .RParen) :: tl => exact ruleOK_ok _ _ _ (by simp)
      | .ok (p, .Plus) :: tl => exact ruleOK_ok _ _ _ (by simp)
      | .ok (p, .Dash) :: tl => exact ruleOK_ok _ _ _ (by simp)
      | .ok (p, .Caret) :: tl => exact ruleOK_ok _ _ _ (by simp)
    have hTer : ∀ l : List LexItem, 8 * l.length + 5 ≤ fuel + 1 →
        ruleOK (parse_term (fuel + 1) l) l.length := by
      intro l hl
      have h := ihFac l (by omega)
      simp only [parse_term]
      cases hps : parse_factor fuel l with
      | none => exact absurd hps h.1
      | some v =>
        cases v with
        | error er => exact ruleOK_error _ _
        | ok pr =>
          obtain ⟨e2, rest⟩ := pr
          have hr := h.2 e2 rest hps
          have h2 := ihTerL rest e2 (by omega)
          exact ruleOK_mono h2 hr
    have hExpL : ∀ (l : List LexItem) (e : Expr), 8 * l.length + 6 ≤ fuel + 1 →
        ruleOK (parse_expr_loop (fuel + 1) e l) l.length := by
      intro l e hl
      match l with
      | [] => exact ruleOK_ok _ _ _ (by simp)
      | .ok (p, .Plus) :: tl =>
        have h := ihTer tl (by simp at hl ⊢; omega)
        simp only [parse_expr_loop]
        cases hps : parse_term fuel tl with
        | none => exact absurd hps h.1
        | some v =>
          cases v with
          | error er => exact ruleOK_error _ _
          | ok pr =>
            obtain ⟨e2, rest⟩ := pr
            have hr := h.2 e2 rest hps
            have h2 := ihExpL rest (.Binary .Add e e2) (by simp at hl hr ⊢; omega)
            exact ruleOK_mono h2 (by simp at hr ⊢; omega)
      | .ok (p, .Dash) :: tl =>
        have h := ihTer tl (by simp at hl ⊢; omega)
        simp only [parse_expr_loop]
        cases hps : parse_term fuel tl with
        | none => exact absurd hps h.1
        | some v =>
          cases v with
          | error er => exact ruleOK_error _ _
          | ok pr =>
            obtain ⟨e2, rest⟩ := pr
            have hr := h.2 e2 rest hps
            have h2 := ihExpL rest (.Binary .Sub e e2) (by simp at hl hr ⊢; omega)
            exact ruleOK_mono h2 (by simp at hr ⊢; omega)
      | .error er :: tl => exact ruleOK_ok _ _ _ (by simp)
      | .ok (p, .Number n) :: tl => exact ruleOK_ok _ _ _ (by simp)
      | .ok (p, .LParen) :: tl => exact ruleOK_ok _ _ _ (by simp)
      | .ok (p, .RParen) :: tl => exact ruleOK_ok _ _ _ (by simp)
      | .ok (p, .Star) :: tl => exact ruleOK_ok _ _ _ (by simp)
      | .ok (p, .Slash) :: tl => exact ruleOK_ok _ _ _ (by simp)
      | .ok (p, .Percent) :: tl => exact ruleOK_ok _ _ _ (by simp)
      | .ok (p, .Caret) :: tl => exact ruleOK_ok _ _ _ (by simp)
    have hExp : ∀ l : List LexItem, 8 * l.length + 7 ≤ fuel + 1 →
        ruleOK (parse_expr (fuel + 1) l) l.length := by
      intro l hl
      have h := ihTer l (by omega)
      simp only [parse_expr]
      cases hps : parse_term fuel l with
      | none => exact absurd hps h.1
      | some v =>
        cases v with
        | error er => exact ruleOK_error _ _
        | ok pr =>
          obtain ⟨e2, rest⟩ := pr
          have hr := h.2 e2 rest hps
          have h2 := ihExpL rest e2 (by omega)
          exact ruleOK_mono h2 hr
    have hPar : ∀ l : List LexItem, 8 * l.length + 8 ≤ fuel + 1 →
        ruleOK (parse_parenthesised (fuel + 1) l) l.length := by
      intro l hl
      have h := ihExp l (by omega)
      simp only [parse_parenthesised]
      cases hps : parse_expr fuel l with
      | none => exact absurd hps h.1
      | some v =>
        cases v with
        | error er => exact ruleOK_error _ _
        | ok pr =>
          obtain ⟨e2, rest⟩ := pr
          have hr := h.2 e2 rest hps
          match rest, hr with
          | [], hr => exact ruleOK_error _ _
          | .error er :: tl, hr => exact ruleOK_error _ _
          | .ok (p, .RParen) :: tl, hr => exact ruleOK_ok _ _ _ (by simp at hr ⊢; omega)
          | .ok (p, .Number n) :: tl, hr => exact ruleOK_error _ _
          | .ok (p, .LParen) :: tl, hr => exact ruleOK_error _ _
          | .ok (p, .Plus) :: tl, hr => exact ruleOK_error _ _
          | .ok (p, .Dash) :: tl, hr => exact ruleOK_error _ _
          | .ok (p, .Star) :: tl, hr => exact ruleOK_error _ _
          | .ok (p, .Slash) :: tl, hr => exact ruleOK_error _ _
          | .ok (p, .Percent) :: tl, hr => exact ruleOK_error _ _
          | .ok (p, .Caret) :: tl, hr => exact ruleOK_error _ _
    exact ⟨hPrim, hFacL, hFac, hTerL, hTer, hExpL, hExp, hPar⟩

theorem scanNum_length_le (cs : List Char) (b : Bool) :
    (scanNum cs b).length ≤ cs.length := by
  induction cs generalizing b with
  | nil => simp [scanNum]
  | cons c tl ih =>
    simp only [scanNum]
    split
    · split
      · simp
      · simpa using ih true
    · split
      · simpa using ih b
      · simp

theorem lexRun_length_le :
    ∀ (fuel : Nat) (cs : List Char) (i : Nat), (lexRun fuel cs i).length ≤ cs.length := by
  intro fuel
  induction fuel with
  | zero => intro cs i; simp [lexRun]
  | succ fuel ih =>
    intro cs i
    match cs with
    | [] => simp [lexRun]
    | c :: tl =>
      simp only [lexRun]
      split
      · exact le_trans (ih tl (i + 1)) (by simp)
      · split
        · simpa using ih tl (i + 1)
        · split
          · have h := ih (tl.drop (scanNum tl (c = '.')).length) (i + 1 + (scanNum tl (c = '.')).length)
            simp only [List.length_cons, List.length_drop] at h ⊢
            omega
          · simp

theorem lexRun_fuel_irrelevant :
    ∀ (fuel fuel2 : Nat) (cs : List Char) (i : Nat), cs.length < fuel → cs.length < fuel2 →
      lexRun fuel cs i = lexRun fuel2 cs i := by
  intro fuel
  induction fuel with
  | zero => intro fuel2 cs i h; omega
  | succ fuel ih =>
    intro fuel2 cs i h h2
    match fuel2, h2 with
    | fuel2 + 1, h2 =>
      match cs with
      | [] => rfl
      | c :: tl =>
        simp only [lexRun]
        split
        · exact ih fuel2 tl (i + 1) (by simp at h; omega) (by simp at h2; omega)
        · split
          · rw [ih fuel2 tl (i + 1) (by simp at h; omega) (by simp at h2; omega)]
          · split
            · rw [ih fuel2 (tl.drop (scanNum tl (c = '.')).length) _
                (by simp at h ⊢; omega) (by simp at h2 ⊢; omega)]
            · rfl

theorem parse_complete_expr_fuel_sufficient (l : List LexItem) :
    ∃ r, parse_complete_expr (8 * l.length + 8) l = some r := by
  have h := (parse_fuel_sufficient (8 * l.length + 7)).2.2.2.2.2.2.1 l (by omega)
  rw [show 8 * l.length + 8 = (8 * l.length + 7) + 1 by omega]
  simp only [parse_complete_expr]
  cases hps : parse_expr (8 * l.length + 7) l with
  | none => exact absurd hps h.1
  | some v =>
    cases v with
    | error er => exact ⟨.error er, rfl⟩
    | ok pr =>
      obtain ⟨e, rest⟩ := pr
      match rest with
      | [] => exact ⟨.ok e, rfl⟩
      | .ok (p, t) :: tl => exact ⟨.error (.Lex (p, UNEXPECTED_TOKEN)), rfl⟩
      | .error er :: tl => exact ⟨.error (.Lex er), rfl⟩

theorem tokens_length_le (s : String) : (tokens s).length ≤ s.length :=
  lexRun_length_le (s.data.length + 1) s.data 0

/-! ## The claims -/

/-- Claim C1: the modulo operator is supported end to end.  The lexer maps
the single character `%` to a `Percent` token at its own starting
position; the parser treats `Percent` at the same precedence level as `*`
and `/` (a `Star`-then-`Percent` chain groups left, and so does a
`Percent`-then-`Star` chain); for every pair of numeric literals the
parsed tree evaluates to the truncated float remainder `rustFmod`; and
`evaluate` gives `1 % 2 = 1`, `4 % 2 = 0`, `8 % 3 = 2`, `11 % 7 = 4`. -/
theorem C1_modulo_end_to_end :
    (∀ (fuel i : Nat) (tl : List Char),
      lexRun (fuel + 1) ('%' :: tl) i = .ok (i, .Percent) :: lexRun fuel tl (i + 1)) ∧
    (∀ (a b : ℚ) (p q r : TokenPosition),
      parse_complete_expr (8 * 3 + 8)
          [.ok (p, .Number a), .ok (q, .Percent), .ok (r, .Number b)]
        = some (.ok (.Binary .Mod (.Num a) (.Num b)))) ∧
    (∀ a b : ℚ, (Expr.Binary .Mod (.Num a) (.Num b)).eval = rustFmod a b) ∧
    (∀ (a b c : ℚ) (p1 p2 p3 p4 p5 : TokenPosition),
      parse_complete_expr (8 * 5 + 8)
          [.ok (p1, .Number a), .ok (p2, .Star), .ok (p3, .Number b),
            .ok (p4, .Percent), .ok (p5, .Number c)]
        = some (.ok (.Binary .Mod (.Binary .Mul (.Num a) (.Num b)) (.Num c))) ∧
      parse_complete_expr (8 * 5 + 8)
          [.ok (p1, .Number a), .ok (p2, .Percent), .ok (p3, .Number b),
            .ok (p4, .Star), .ok (p5, .Number c)]
        = some (.ok (.Binary .Mul (.Binary .Mod (.Num a) (.Num b)) (.Num c)))) ∧
    evaluate "1 % 2" = .ok 1 ∧ evaluate "4 % 2" = .ok 0 ∧
    evaluate "8 % 3" = .ok 2 ∧ evaluate "11 % 7" = .ok 4 := by
  refine ⟨fun fuel i tl => rfl, fun a b p q r => rfl, fun a b => rfl,
    fun a b c p1 p2 p3 p4 p5 => ⟨rfl, rfl⟩, ?_, ?_, ?_, ?_⟩ <;>
    (rw [evaluate_eq_evaluateC]; decide)

/-- Claim C2: a character run that cannot be read as a base-10 numeric
literal (not whitespace, not a single-character token, and its scanned run
fails numeric parsing) makes the lexer emit a lexical error at the run's
starting character offset with message `unknown symbol`, and the two
spec examples hold: `evaluate "2 * &"` is `Lex(4, "unknown symbol")` and
`evaluate "2 * (1a"` is `Lex(6, "unknown symbol")`. -/
theorem C2_unknown_symbol :
    (∀ (fuel i : Nat) (c : Char) (tl : List Char),
      c.isWhitespace = false → singleTok c = none →
      numParse (c :: scanNum tl (c = '.')) = none →
      lexRun (fuel + 1) (c :: tl) i = [.error (i, UNKNOWN_SYMBOL)]) ∧
    evaluate "2 * &" = .error (.Lex (4, "unknown symbol")) ∧
    evaluate "2 * (1a" = .error (.Lex (6, "unknown symbol")) := by
  refine ⟨?_, ?_, ?_⟩
  · intro fuel i c tl hws hst hnp
    simp [lexRun, hws, hst, hnp]
  · rw [evaluate_eq_evaluateC]; decide
  · rw [evaluate_eq_evaluateC]; decide

/-- Witness for claim C2's lexer statement at the concrete input `&` in
position 4 (the offending character of `2 * &`). -/
theorem C2_unknown_symbol_witness :
    ('&'.isWhitespace = false) ∧ singleTok '&' = none ∧
    numParse ('&' :: scanNum [] ('&' = '.')) = none ∧
    lexRun (0 + 1) ['&'] 4 = [.error (4, UNKNOWN_SYMBOL)] :=
  ⟨by decide, by decide, by decide,
    C2_unknown_symbol.1 0 4 '&' [] (by decide) (by decide) (by decide)⟩

/-- Claim C3: unary negation binds more loosely than `^` (the parse of
`-5^2` is `Neg (Pow 5 2)`, so it evaluates to `-25`) but does not swallow
a following binary `+` or `-` (the parse of `-5+5` is `Add (Neg 5) 5`,
evaluating to `0`); also `-(5+5) = -10` and `1--1 = 2` (binary minus
followed by unary minus). -/
theorem C3_negation_precedence :
    parse "-5^2" = .ok (.Unary .Neg (.Binary .Pow (.Num 5) (.Num 2))) ∧
    parse "-5+5" = .ok (.Binary .Add (.Unary .Neg (.Num 5)) (.Num 5)) ∧
    parse "1--1" = .ok (.Binary .Sub (.Num 1) (.Unary .Neg (.Num 1))) ∧
    evaluate "-5^2" = .ok (-25) ∧
    evaluate "-5+5" = .ok 0 ∧
    evaluate "-(5+5)" = .ok (-10) ∧
    evaluate "1--1" = .ok 2 := by
  refine ⟨by decide, by decide, by decide, ?_, ?_, ?_, ?_⟩ <;>
    (rw [evaluate_eq_evaluateC]; decide)

/-- Claim C4: multiplicative operators bind tighter than additive ones,
parentheses override both, and every chain of same-precedence `+ - * /`
operators groups left, `a op b op c = (a op b) op c`; concretely
`4*3+2 = 14 = 2+4*3`, `2 * (5+1) = 12`, `(2*5)+1 = 11`, `6/2*3 = 9`. -/
theorem C4_precedence_left_assoc :
    (∀ (a b c : ℚ) (p1 p2 p3 p4 p5 : TokenPosition),
      parse_complete_expr (8 * 5 + 8)
          [.ok (p1, .Number a), .ok (p2, .Plus), .ok (p3, .Number b),
            .ok (p4, .Dash), .ok (p5, .Number c)]
        = some (.ok (.Binary .Sub (.Binary .Add (.Num a) (.Num b)) (.Num c))) ∧
      parse_complete_expr (8 * 5 + 8)
          [.ok (p1, .Number a), .ok (p2, .Dash), .ok (p3, .Number b),
            .ok (p4, .Plus), .ok (p5, .Number c)]
        = some (.ok (.Binary .Add (.Binary .Sub (.Num a) (.Num b)) (.Num c))) ∧
      parse_complete_expr (8 * 5 + 8)
          [.ok (p1, .Number a), .ok (p2, .Star), .ok (p3, .Number b),
            .ok (p4, .Slash), .ok (p5, .Number c)]
        = some (.ok (.Binary .Div (.Binary .Mul (.Num a) (.Num b)) (.Num c))) ∧
      parse_complete_expr (8 * 5 + 8)
          [.ok (p1, .Number a), .ok (p2, .Slash), .ok (p3, .Number b),
            .ok (p4, .Star), .ok (p5, .Number c)]
        = some (.ok (.Binary .Mul (.Binary .Div (.Num a) (.Num b)) (.Num c))) ∧
      parse_complete_expr (8 * 5 + 8)
          [.ok (p1, .Number a), .ok (p2, .Plus), .ok (p3, .Number b),
            .ok (p4, .Star), .ok (p5, .Number c)]
        = some (.ok (.Binary .Add (.Num a) (.Binary .Mul (.Num b) (.Num c)))) ∧
      parse_complete_expr (8 * 5 + 8)
          [.ok (p1, .Number a), .ok (p2, .Star), .ok (p3, .Number b),
            .ok (p4, .Plus), .ok (p5, .Number c)]
        = some (.ok (.Binary .Add (.Binary .Mul (.Num a) (.Num b)) (.Num c)))) ∧
    evaluate "4*3+2" = .ok 14 ∧ evaluate "2+4*3" = .ok 14 ∧
    evaluate "2 * (5+1)" = .ok 12 ∧ evaluate "(2*5)+1" = .ok 11 ∧
    evaluate "6/2*3" = .ok 9 := by
  refine ⟨fun a b c p1 p2 p3 p4 p5 => ⟨rfl, rfl, rfl, rfl, rfl, rfl⟩,
    ?_, ?_, ?_, ?_, ?_⟩ <;>
    (rw [evaluate_eq_evaluateC]; decide)

/-- Claim C5: the power operator is right-associative (the parse of
`a^b^c` is `Pow a (Pow b c)` for all numeric literals) and supports
fractional exponents, `5^2 = 25` and `9^0.5 = 3`. -/
theorem C5_power_right_assoc :
    (∀ (a b c : ℚ) (p1 p2 p3 p4 p5 : TokenPosition),
      parse_complete_expr (8 * 5 + 8)
          [.ok (p1, .Number a), .ok (p2, .Caret), .ok (p3, .Number b),
            .ok (p4, .Caret), .ok (p5, .Number c)]
        = some (.ok (.Binary .Pow (.Num a) (.Binary .Pow (.Num b) (.Num c))))) ∧
    evaluate "5^2" = .ok 25 ∧ evaluate "9^0.5" = .ok 3 := by
  refine ⟨fun a b c p1 p2 p3 p4 p5 => rfl, ?_, ?_⟩ <;>
    (rw [evaluate_eq_evaluateC]; decide)

/-- Claim C6: when the input ends where the grammar requires another token
(primary position with no tokens left, or end of input before a required
closing parenthesis), `evaluate` returns the distinguished `Incomplete`
error: `2 * `, `2 * (` and `2 * (5+2` are all `Incomplete`, and appending
the closing parenthesis gives `2 * (5+2) = 14`. -/
theorem C6_incomplete :
    (∀ fuel : Nat, parse_primary (fuel + 1) [] = some (.error .Incomplete)) ∧
    evaluate "2 * " = .error .Incomplete ∧
    evaluate "2 * (" = .error .Incomplete ∧
    evaluate "2 * (5+2" = .error .Incomplete ∧
    evaluate "2 * (5+2)" = .ok 14 := by
  refine ⟨fun fuel => rfl, ?_, ?_, ?_, ?_⟩ <;>
    (rw [evaluate_eq_evaluateC]; decide)

/-- Claim C7: after one full expression the token stream must be
exhausted; any leftover token makes `parse_complete_expr` fail with
`Lex(pos, "not expected here")` at that token's position, and the spec
examples hold: `1 - 5 */ 5` fails at 7, `2()` at 1, `2*()` at 3. -/
theorem C7_leftover_token :
    (∀ (fuel : Nat) (l rest : List LexItem) (e : Expr) (pos : TokenPosition) (tok : Token),
      parse_expr fuel l = some (.ok (e, .ok (pos, tok) :: rest)) →
      parse_complete_expr (fuel + 1) l = some (.error (.Lex (pos, UNEXPECTED_TOKEN)))) ∧
    evaluate "1 - 5 */ 5" = .error (.Lex (7, "not expected here")) ∧
    evaluate "2()" = .error (.Lex (1, "not expected here")) ∧
    evaluate "2*()" = .error (.Lex (3, "not expected here")) := by
  refine ⟨?_, ?_, ?_, ?_⟩
  · intro fuel l rest e pos tok h
    simp [parse_complete_expr, h]
  · rw [evaluate_eq_evaluateC]; decide
  · rw [evaluate_eq_evaluateC]; decide
  · rw [evaluate_eq_evaluateC]; decide

/-- Witness for claim C7's leftover-token statement on the token stream of
`2()`: the expression `2` is parsed, the leftover `(` at position 1 turns
into `Lex(1, "not expected here")`. -/
theorem C7_leftover_token_witness :
    parse_expr 31 (tokens "2()")
      = some (.ok (.Num 2, [.ok (1, .LParen), .ok (2, .RParen)])) ∧
    parse_complete_expr (31 + 1) (tokens "2()")
      = some (.error (.Lex (1, UNEXPECTED_TOKEN))) :=
  ⟨by decide,
    C7_leftover_token.1 31 (tokens "2()") [.ok (2, .RParen)] (.Num 2) 1 .LParen (by decide)⟩

/-- Claim C8: the evaluator is total: `Expr.eval` is a total function on
parse trees, so whenever parsing succeeds `evaluate` returns `Ok` of the
evaluated tree, never an error; in particular division by zero
(`evaluate "1/0"`) and a negative base with fractional exponent
(`evaluate "(0-1)^0.5"`) still return `Ok` (their IEEE-754 infinity/NaN
payloads are outside the exact-rational model, so only existence of the
`Ok` result is claimed). -/
theorem C8_eval_total :
    (∀ (s : String) (e : Expr), parse s = .ok e → evaluate s = .ok e.eval) ∧
    (∃ v : ℚ, evaluate "1/0" = .ok v) ∧
    (∃ v : ℚ, evaluate "(0-1)^0.5" = .ok v) := by
  refine ⟨?_, ⟨0, ?_⟩, ⟨0, ?_⟩⟩
  · intro s e h
    rw [evaluate, h]
    rfl
  · rw [evaluate_eq_evaluateC]; decide
  · rw [evaluate_eq_evaluateC]; decide

/-- Witness for claim C8's totality statement at the input `1+1`. -/
theorem C8_eval_total_witness :
    parse "1+1" = .ok (.Binary .Add (.Num 1) (.Num 1)) ∧
    evaluate "1+1" = .ok ((Expr.Binary .Add (.Num 1) (.Num 1)).eval) :=
  ⟨by decide, C8_eval_total.1 "1+1" (.Binary .Add (.Num 1) (.Num 1)) (by decide)⟩

/-- Claim C9: the whole lex-parse-evaluate pipeline terminates on every
finite input: the parser's fuel `8 * length + 8` always yields a result
(the fuel-exhaustion branch is never taken, because every rule returns a
suffix of its input and consumes a token before recursing at equal rank),
and the lexer emits at most one item per input character. -/
theorem C9_termination :
    (∀ s : String, ∃ r, parse_complete_expr (8 * (tokens s).length + 8) (tokens s) = some r) ∧
    (∀ s : String, (tokens s).length ≤ s.length) ∧
    (∀ l : List LexItem, ruleOK (parse_expr (8 * l.length + 7) l) l.length) :=
  ⟨fun s => parse_complete_expr_fuel_sufficient (tokens s),
    tokens_length_le,
    fun l => (parse_fuel_sufficient (8 * l.length + 7)).2.2.2.2.2.2.1 l (le_refl _)⟩

/-- Claim C10: if after the inner expression of a parenthesised group the
next token exists but is not `)`, the parser returns `Incomplete` (not a
positioned `Lex` error); concretely `evaluate "(1 2)"` is `Incomplete`
even though the input has not run out. -/
theorem C10_paren_incomplete :
    (∀ (fuel : Nat) (l rest : List LexItem) (e : Expr) (pos : TokenPosition) (tok : Token),
      parse_expr fuel l = some (.ok (e, .ok (pos, tok) :: rest)) → tok ≠ .RParen →
      parse_parenthesised (fuel + 1) l = some (.error .Incomplete)) ∧
    evaluate "(1 2)" = .error .Incomplete := by
  refine ⟨?_, ?_⟩
  · intro fuel l rest e pos tok h h2
    cases tok with
    | RParen => exact absurd rfl h2
    | LParen => simp [parse_parenthesised, h]
    | Plus => simp [parse_parenthesised, h]
    | Dash => simp [parse_parenthesised, h]
    | Caret => simp [parse_parenthesised, h]
    | Slash => simp [parse_parenthesised, h]
    | Star => simp [parse_parenthesised, h]
    | Percent => simp [parse_parenthesised, h]
    | Number n => simp [parse_parenthesised, h]
  · rw [evaluate_eq_evaluateC]; decide

/-- Witness for claim C10's statement on the token stream `1 2` inside a
parenthesised group: the leftover token is a number, not `)`, and the
result is `Incomplete`. -/
theorem C10_paren_incomplete_witness :
    parse_expr 17 [.ok (0, .Number 1), .ok (2, .Number 2)]
      = some (.ok (.Num 1, [.ok (2, .Number 2)])) ∧
    ((Token.Number 2) ≠ Token.RParen) ∧
    parse_parenthesised (17 + 1) [.ok (0, .Number 1), .ok (2, .Number 2)]
      = some (.error .Incomplete) :=
  ⟨by decide, by decide,
    C10_paren_incomplete.1 17 [.ok (0, .Number 1), .ok (2, .Number 2)] []
      (.Num 1) 2 (.Number 2) (by decide) (by decide)⟩

end RCalc
